import Mathlib

/-
  Verification development for the EliteBot sheet-synchronization core.

  Shallow embedding conventions:
  * Python strings are modelled as `List Char` (`PyStr`), so every string
    operation (strip, lower, split, startswith, `in`) is an explicit list
    function defined below.
  * Python exceptions are modelled with `Except`; the exception classes in
    play are listed in `PyExc`.
  * Python floats are modelled as exact rationals (`Rat`).  All concrete
    values used in the theorems below are exactly representable, so the
    model and IEEE doubles agree on them.  `inf`/`nan` inputs and digit
    group underscores accepted by `float()`/`int()` are not modelled.
-/

namespace EliteBot

/-- Model of a Python `str` as a list of characters. -/
abbrev PyStr := List Char

/-- The Python exception classes relevant to the embedded code. -/
inductive PyExc where
  | valueError
  | indexError
  | zeroDivisionError
  | sheetParsingError
  deriving DecidableEq, Repr

/-- Model of Python `str.lower` (ASCII case folding). -/
def pyLower (s : PyStr) : PyStr := s.map Char.toLower

/-- Whitespace characters stripped by Python `str.strip()` (ASCII subset). -/
def pyIsSpace (c : Char) : Bool :=
  c == ' ' || c == '\t' || c == '\n' || c == '\x0d' || c == '\x0b' || c == '\x0c'

/-- Model of Python `str.strip()`: remove whitespace from both ends. -/
def pyStrip (s : PyStr) : PyStr :=
  ((s.dropWhile pyIsSpace).reverse.dropWhile pyIsSpace).reverse

/-- Model of Python `str.split(sep)` for a single-character separator. -/
def pySplitOn (sep : Char) : PyStr → List PyStr
  | [] => [[]]
  | c :: rest =>
    if c == sep then [] :: pySplitOn sep rest
    else
      match pySplitOn sep rest with
      | [] => [[c]]
      | s :: ss => (c :: s) :: ss

/-- Numeric value of a digit string (most significant digit first). -/
def digitsVal (ds : PyStr) : Nat :=
  ds.foldl (fun a c => 10 * a + (c.toNat - 48)) 0

/-- Parse an unsigned run of decimal digits; `none` if empty or non-digits. -/
def parseUDigits (ds : PyStr) : Option Nat :=
  if !ds.isEmpty && ds.all Char.isDigit then some (digitsVal ds) else none

/-- Accept a digit string for `int()`, applying the sign. -/
def digitsOkInt (neg : Bool) (ds : PyStr) : Except PyExc Int :=
  match parseUDigits ds with
  | some n => .ok (if neg then -(n : Int) else (n : Int))
  | none => .error .valueError

/-- Model of Python `int(str)`: surrounding whitespace, an optional sign and
one or more decimal digits; anything else raises `ValueError`. -/
def pyInt (w : PyStr) : Except PyExc Int :=
  match pyStrip w with
  | '+' :: ds => digitsOkInt false ds
  | '-' :: ds => digitsOkInt true ds
  | ds => digitsOkInt false ds

/-- Parse an optionally signed decimal integer (exponent part of a float). -/
def parseSignedInt (s : PyStr) : Option Int :=
  match s with
  | '+' :: ds => (parseUDigits ds).map (fun n => (n : Int))
  | '-' :: ds => (parseUDigits ds).map (fun n => -(n : Int))
  | ds => (parseUDigits ds).map (fun n => (n : Int))

/-- Parse the mantissa of a float: `d`, `d.`, `d.d` or `.d` forms. -/
def parseMantissa (s : PyStr) : Option Rat :=
  match pySplitOn '.' s with
  | [ds] => (parseUDigits ds).map (fun n => (n : Rat))
  | [ip, fp] =>
    if ip.all Char.isDigit && fp.all Char.isDigit && !(ip.isEmpty && fp.isEmpty) then
      some ((digitsVal ip : Rat) + (digitsVal fp : Rat) / ((10 : Rat) ^ fp.length))
    else none
  | _ => none

/-- Parse the body of a float after the optional leading sign:
mantissa with an optional `e`/`E` exponent. -/
def parseFloatBody (s : PyStr) : Option Rat :=
  match pySplitOn 'e' (pyLower s) with
  | [m] => parseMantissa m
  | [m, ex] =>
    match parseMantissa m, parseSignedInt ex with
    | some mv, some ev => some (mv * (10 : Rat) ^ ev)
    | _, _ => none
  | _ => none

/-- Model of Python `float(str)` restricted to finite decimal literals:
surrounding whitespace, optional sign, decimal mantissa, optional exponent.
`inf`/`nan` spellings are not modelled. -/
def pyFloat (w : PyStr) : Except PyExc Rat :=
  match pyStrip w with
  | '+' :: r => match parseFloatBody r with | some v => .ok v | none => .error .valueError
  | '-' :: r => match parseFloatBody r with | some v => .ok (-v) | none => .error .valueError
  | r => match parseFloatBody r with | some v => .ok v | none => .error .valueError

/-- Model of `cogdb.schema.parse_int`: `int(word)` with `ValueError` mapped to 0. -/
def parse_int (word : PyStr) : Int :=
  match pyInt word with
  | .ok n => n
  | .error _ => 0

/-- Model of `cogdb.schema.parse_float`: `float(word)` with `ValueError` mapped to 0.0. -/
def parse_float (word : PyStr) : Rat :=
  match pyFloat word with
  | .ok v => v
  | .error _ => 0

theorem digitsOkInt_cases (neg : Bool) (ds : PyStr) :
    digitsOkInt neg ds = .ok (if neg then -(digitsVal ds : Int) else (digitsVal ds : Int))
      ∨ digitsOkInt neg ds = .error .valueError := by
  unfold digitsOkInt parseUDigits
  by_cases h : !ds.isEmpty && ds.all Char.isDigit
  · simp [h]
  · simp [h]

theorem pyInt_ok_or_valueError (w : PyStr) :
    pyInt w = .ok (parse_int w) ∨ (pyInt w = .error .valueError ∧ parse_int w = 0) := by
  unfold parse_int
  unfold pyInt
  rcases hs : pyStrip w with _ | ⟨c, ds⟩
  · rcases digitsOkInt_cases false [] with h | h <;> simp [h]
  · by_cases hc1 : c = '+'
    · subst hc1
      rcases digitsOkInt_cases false ds with h | h <;> simp [h]
    · by_cases hc2 : c = '-'
      · subst hc2
        rcases digitsOkInt_cases true ds with h | h <;> simp [h]
      · rcases digitsOkInt_cases false (c :: ds) with h | h <;>
          simp [hc1, hc2, h]

theorem pyFloat_ok_or_valueError (w : PyStr) :
    pyFloat w = .ok (parse_float w) ∨ (pyFloat w = .error .valueError ∧ parse_float w = 0) := by
  unfold parse_float
  unfold pyFloat
  rcases hs : pyStrip w with _ | ⟨c, r⟩
  · rcases h : parseFloatBody [] with _ | v <;> simp [h]
  · by_cases hc1 : c = '+'
    · subst hc1
      rcases h : parseFloatBody r with _ | v <;> simp [h]
    · by_cases hc2 : c = '-'
      · subst hc2
        rcases h : parseFloatBody r with _ | v <;> simp [h]
      · rcases h : parseFloatBody (c :: r) with _ | v <;> simp [hc1, hc2, h]

/-- C7: for every cell string, `parse_int` returns the parsed integer when the
string is a valid integer literal and 0 otherwise, and `parse_float` returns
the parsed value when the string is a valid float literal and 0.0 otherwise;
both are total functions (they never raise), with the lenient fallback
witnessed on concrete well-formed and malformed cells. -/
theorem parse_int_parse_float_lenient :
    (∀ w : PyStr, pyInt w = .ok (parse_int w) ∨ (pyInt w = .error .valueError ∧ parse_int w = 0))
    ∧ (∀ w : PyStr, pyFloat w = .ok (parse_float w) ∨ (pyFloat w = .error .valueError ∧ parse_float w = 0))
    ∧ parse_int "123".data = 123
    ∧ parse_int " -7 ".data = -7
    ∧ parse_int "".data = 0
    ∧ parse_int "2.5".data = 0
    ∧ parse_float "2.5".data = 5 / 2
    ∧ parse_float "-1e2".data = -100
    ∧ parse_float "".data = 0
    ∧ parse_float "abc".data = 0 := by
  refine ⟨pyInt_ok_or_valueError, pyFloat_ok_or_valueError, by decide, by decide, by decide,
    by decide, ?_, ?_, by decide, by decide⟩
  · simp +decide [parse_float, pyFloat, pyStrip, pyIsSpace, parseFloatBody, parseMantissa,
      parseSignedInt, parseUDigits, digitsVal, pySplitOn, pyLower]
    norm_num
  · simp +decide [parse_float, pyFloat, pyStrip, pyIsSpace, parseFloatBody, parseMantissa,
      parseSignedInt, parseUDigits, digitsVal, pySplitOn, pyLower]
    norm_num

/-- Inner while loop of `cogdb.query.subseq_match`: scan the remaining line
suffix for the current needle character `c`, where `ns` is the needle text
after `c` (so `len(needle[n_index:]) = ns.length + 1`).  `.ok (some ls)`
models a match followed by `break`, `ls` being the line suffix after the
matched character (`l_index` advanced past it); `.ok none` models the inner
loop ending because `l_index` reached `len(line)`; `.error ()` models
`raise cog.exc.NoMatch(needle)` on the early-exit check
`len(needle[n_index:]) > len(line[l_index + 1:])`. -/
def smInner (c : Char) (ns : PyStr) : PyStr → Except Unit (Option PyStr)
  | [] => .ok none
  | d :: ls =>
    if c == d then .ok (some ls)
    else if ls.length < ns.length + 1 then .error ()
    else smInner c ns ls

/-- Outer while loop of `cogdb.query.subseq_match` over the needle suffix;
`mcount` (the `matches` counter of the source) counts matched characters and `needleLen` is `len(needle)`, so the
value returned when the needle is exhausted is `mcount == len(needle)`
exactly as in the source. -/
def smOuter (needleLen : Nat) : PyStr → PyStr → Nat → Except Unit Bool
  | [], _, mcount => .ok (mcount == needleLen)
  | c :: ns, line, mcount =>
    match smInner c ns line with
    | .error e => .error e
    | .ok none => smOuter needleLen ns [] mcount
    | .ok (some ls) => smOuter needleLen ns ls (mcount + 1)

/-- Model of `cogdb.query.subseq_match` (src/cogdb/query.py).  The index pair
`(n_index, l_index)` of the source is represented by the needle and line
suffixes still to be scanned. -/
def subseq_match (needle line : PyStr) (ignore_case : Bool) : Except Unit Bool :=
  let needle2 := if ignore_case then pyLower needle else needle
  let line2 := if ignore_case then pyLower line else line
  smOuter needle2.length needle2 line2 0

theorem cons_sublist_cons_of_ne {c d : Char} {t u : PyStr} (h : c ≠ d) :
    List.Sublist (c :: t) (d :: u) ↔ List.Sublist (c :: t) u := by
  constructor
  · intro hs
    cases hs with
    | cons _ h2 => exact h2
    | cons₂ => exact absurd rfl h
  · exact fun hs => hs.cons d

theorem smInner_ok_none {c : Char} {ns line : PyStr}
    (h : smInner c ns line = .ok none) : line = [] := by
  induction line with
  | nil => rfl
  | cons d ls ih =>
    by_cases hc : c == d
    · simp [smInner, hc] at h
    · by_cases hl : ls.length < ns.length + 1
      · simp [smInner, hc, hl] at h
      · have h2 : smInner c ns ls = .ok none := by simpa [smInner, hc, hl] using h
        have := ih h2
        subst this
        simp at hl

theorem smInner_some_iff {c : Char} {ns line ls2 : PyStr}
    (h : smInner c ns line = .ok (some ls2)) : (List.Sublist (c :: ns) line ↔ List.Sublist ns ls2) := by
  induction line with
  | nil => simp [smInner] at h
  | cons d ls ih =>
    by_cases hc : c == d
    · have hcd : c = d := by simpa using hc
      have hls : ls = ls2 := by simpa [smInner, hc] using h
      subst hcd; subst hls
      exact List.cons_sublist_cons
    · by_cases hl : ls.length < ns.length + 1
      · simp [smInner, hc, hl] at h
      · have h2 : smInner c ns ls = .ok (some ls2) := by simpa [smInner, hc, hl] using h
        have hcd : c ≠ d := by simpa using hc
        rw [cons_sublist_cons_of_ne hcd]
        exact ih h2

theorem smInner_error {c : Char} {ns line : PyStr}
    (h : smInner c ns line = .error ()) : ¬ List.Sublist (c :: ns) line := by
  induction line with
  | nil => simp [smInner] at h
  | cons d ls ih =>
    by_cases hc : c == d
    · simp [smInner, hc] at h
    · have hcd : c ≠ d := by simpa using hc
      by_cases hl : ls.length < ns.length + 1
      · intro hs
        have hs2 : List.Sublist (c :: ns) ls := (cons_sublist_cons_of_ne hcd).mp hs
        have hlen := hs2.length_le
        simp at hlen
        omega
      · have h2 : smInner c ns ls = .error () := by simpa [smInner, hc, hl] using h
        intro hs
        exact ih h2 ((cons_sublist_cons_of_ne hcd).mp hs)

theorem smOuter_nil_line (needleLen : Nat) (ns : PyStr) (mcount : Nat) :
    smOuter needleLen ns [] mcount = .ok (mcount == needleLen) := by
  induction ns with
  | nil => rfl
  | cons c ns ih => simpa [smOuter, smInner] using ih

theorem smOuter_ok_true_iff (needleLen : Nat) (ns : PyStr) :
    ∀ (line : PyStr) (mcount : Nat), mcount + ns.length = needleLen →
      (smOuter needleLen ns line mcount = .ok true ↔ List.Sublist ns line) := by
  induction ns with
  | nil =>
    intro line mcount hm
    simp at hm
    simp [smOuter, hm, List.nil_sublist]
  | cons c ns ih =>
    intro line mcount hm
    cases h : smInner c ns line with
    | error e =>
      cases e
      simp only [smOuter, h]
      constructor
      · intro habs; simp at habs
      · intro hs; exact absurd hs (smInner_error h)
    | ok o =>
      cases o with
      | none =>
        have hl := smInner_ok_none h
        subst hl
        rw [smOuter_nil_line]
        have hne : (mcount == needleLen) = false := by
          simp only [List.length_cons] at hm
          simp
          omega
        rw [hne]
        simp [List.sublist_nil]
      | some ls2 =>
        simp only [smOuter, h]
        rw [ih ls2 (mcount + 1) (by simp only [List.length_cons] at hm ⊢; omega)]
        exact (smInner_some_iff h).symm

theorem subseq_match_true_iff (needle line : PyStr) :
    subseq_match needle line true = .ok true ↔ List.Sublist (pyLower needle) (pyLower line) := by
  unfold subseq_match
  simp only [if_true]
  exact smOuter_ok_true_iff (pyLower needle).length (pyLower needle) (pyLower line) 0 (by simp)

/-- C4: `subseq_match(needle, haystack)` (with the default `ignore_case`)
returns True exactly when the characters of the needle occur in the haystack
in order as a subsequence, comparing case-insensitively; in particular
`subseq_match("alx", "alex")` returns True and `subseq_match("not", "alex")`
raises NoMatch. -/
theorem subseq_match_spec :
    (∀ needle line : PyStr,
      subseq_match needle line true = .ok true ↔ List.Sublist (pyLower needle) (pyLower line))
    ∧ subseq_match "alx".data "alex".data true = .ok true
    ∧ subseq_match "not".data "alex".data true = .error () :=
  ⟨subseq_match_true_iff, by rfl, by rfl⟩

/-- Outcomes of `cogdb.query.fuzzy_find`: the `NoMatch` and `MoreThanOneMatch`
exceptions (the latter carrying the list of all matching candidates), plus
the uncaught `IndexError` arising from `stack[0]` in the zero-match branch
when the stack itself is empty. -/
inductive FuzzyErr (α : Type) where
  | noMatch : FuzzyErr α
  | moreThanOneMatch : List α → FuzzyErr α
  | indexError : FuzzyErr α
  deriving DecidableEq

/-- Truthiness of `subseq_match(needle, getattr(obj, obj_attr, obj))` inside
`fuzzy_find`: a raised `NoMatch` is caught by the `except` clause and counts
as no match.  `proj` models the projection `getattr(obj, obj_attr, obj)`. -/
def fuzzyMatches (needle : PyStr) (ignore_case : Bool) (proj : α → PyStr) (obj : α) : Bool :=
  match subseq_match needle (proj obj) ignore_case with
  | .ok b => b
  | .error _ => false

/-- Model of `cogdb.query.fuzzy_find` (src/cogdb/query.py): gather the
matching candidates, return the single match, raise `NoMatch` on zero hits
(building the message from `stack[0]`, an `IndexError` when the stack is
empty) and `MoreThanOneMatch` with the whole match list otherwise. -/
def fuzzy_find (needle : PyStr) (stack : List α) (proj : α → PyStr) (ignore_case : Bool) :
    Except (FuzzyErr α) α :=
  match stack.filter (fuzzyMatches needle ignore_case proj) with
  | [m] => .ok m
  | [] =>
    match stack with
    | [] => .error .indexError
    | _ :: _ => .error .noMatch
  | ms => .error (.moreThanOneMatch ms)

/-- Specification-side filter: the candidates whose projected field contains
the needle as a case-folded subsequence. -/
def specMatches (needle : PyStr) (stack : List α) (proj : α → PyStr) : List α :=
  stack.filter (fun o => decide (List.Sublist (pyLower needle) (pyLower (proj o))))

theorem fuzzyMatches_eq_specFilter (needle : PyStr) (proj : α → PyStr) (o : α) :
    fuzzyMatches needle true proj o
      = decide (List.Sublist (pyLower needle) (pyLower (proj o))) := by
  have h := subseq_match_true_iff needle (proj o)
  unfold fuzzyMatches
  cases hs : subseq_match needle (proj o) true with
  | error e =>
    have hno : ¬ List.Sublist (pyLower needle) (pyLower (proj o)) := by
      intro hsub
      have := h.mpr hsub
      rw [hs] at this
      cases this
    simp [hno]
  | ok b =>
    cases b with
    | true =>
      have := h.mp hs
      simp [this]
    | false =>
      have hno : ¬ List.Sublist (pyLower needle) (pyLower (proj o)) := by
        intro hsub
        have := h.mpr hsub
        rw [hs] at this
        cases this
      simp [hno]

theorem fuzzy_find_eq_specMatches_cases (needle : PyStr) (stack : List α) (proj : α → PyStr) :
    fuzzy_find needle stack proj true =
      match specMatches needle stack proj, stack with
      | [m], _ => .ok m
      | [], [] => .error .indexError
      | [], _ :: _ => .error .noMatch
      | ms, _ => .error (.moreThanOneMatch ms) := by
  unfold fuzzy_find
  rw [List.filter_congr (fun x _ => fuzzyMatches_eq_specFilter needle proj x)]
  rw [show stack.filter (fun o => decide (List.Sublist (pyLower needle) (pyLower (proj o))))
        = specMatches needle stack proj from rfl]
  rcases specMatches needle stack proj with _ | ⟨m, _ | ⟨m2, ms⟩⟩
  · cases stack <;> rfl
  · rfl
  · rfl

/-- C3 (amended): `fuzzy_find` returns the unique candidate whose projected
attribute subsequence-matches the needle when exactly one matches, raises
`MoreThanOneMatch` carrying the full list of matching candidates when more
than one matches, raises `NoMatch` when zero candidates match and the
candidate list is nonempty, and raises `IndexError` (not `NoMatch`) when the
candidate list itself is empty; it never silently picks among multiple
matches.  The spec scenarios over the two Alexand* names are included. -/
theorem fuzzy_find_spec :
    (∀ (α : Type) (needle : PyStr) (stack : List α) (proj : α → PyStr),
      fuzzy_find needle stack proj true =
        match specMatches needle stack proj, stack with
        | [m], _ => .ok m
        | [], [] => .error .indexError
        | [], _ :: _ => .error .noMatch
        | ms, _ => .error (.moreThanOneMatch ms))
    ∧ fuzzy_find "Ale".data ["Alexander Astropath".data, "Alexandra".data] id true
        = .error (.moreThanOneMatch ["Alexander Astropath".data, "Alexandra".data])
    ∧ fuzzy_find "Alex A".data ["Alexander Astropath".data, "Alexandra".data] id true
        = .ok "Alexander Astropath".data :=
  ⟨fun _ => fuzzy_find_eq_specMatches_cases, by rfl, by rfl⟩

/-- C3 counterexample: with an empty candidate list (zero candidates match),
`fuzzy_find` does not raise `NoMatch` — evaluating `stack[0]` to build the
`NoMatch` message raises an uncaught `IndexError` instead. -/
theorem fuzzy_find_empty_counterexample :
    fuzzy_find "a".data ([] : List PyStr) id true = .error .indexError
    ∧ fuzzy_find "a".data ([] : List PyStr) id true ≠ .error .noMatch := by
  constructor
  · rfl
  · intro h
    have h2 : (Except.error FuzzyErr.indexError : Except (FuzzyErr PyStr) PyStr)
        = Except.error .noMatch := h
    exact FuzzyErr.noConfusion (Except.error.inj h2)

theorem lt_length_of_get?_eq_some {α : Type} {l : List α} {n : Nat} {a : α}
    (h : l.get? n = some a) : n < l.length := by
  by_contra hh
  rw [List.get?_eq_none.mpr (by omega)] at h
  cases h

theorem get?_eq_some_getD {α : Type} {l : List α} {n : Nat} (d : α) (h : n < l.length) :
    l.get? n = some (l.getD n d) := by
  rcases hg : l.get? n with _ | a
  · rw [List.get?_eq_none] at hg
    omega
  · rw [List.getD_eq_getElem?_getD, ← List.get?_eq_getElem?, hg]
    rfl

theorem getD_eq_of_get? {α : Type} {l : List α} {n : Nat} {a : α} (d : α)
    (h : l.get? n = some a) : l.getD n d = a := by
  rw [List.getD_eq_getElem?_getD, ← List.get?_eq_getElem?, h]
  rfl

/-- Record built by `cogdb.schema.kwargs_fort_system`: the kwargs dict used to
initialize a fort `System`. -/
structure FortKwargs where
  undermine : Rat
  fort_override : Rat
  trigger : Int
  fort_status : Int
  um_status : Int
  distance : Rat
  notes : PyStr
  name : PyStr
  sheet_col : PyStr
  sheet_order : Int
  deriving DecidableEq, Repr

/-- Model of `cogdb.schema.kwargs_fort_system` (src/cogdb/schema.py).  Cell
accesses follow the source's evaluation order (`lines[9]` first, then the
dict entries at indices 0, 1, 2, 5, 6, 7, 8); an out-of-range access raises
`IndexError`, which the source's `except (IndexError, TypeError)` clause
converts into `SheetParsingError` (cells are strings in this model, so
`TypeError` cannot arise). -/
def kwargs_fort_system (lines : List PyStr) (order : Int) (column : PyStr) :
    Except PyExc FortKwargs :=
  match lines.get? 9 with
  | none => .error .sheetParsingError
  | some name9 =>
  if name9 = [] then .error .sheetParsingError
  else
  match lines.get? 0 with
  | none => .error .sheetParsingError
  | some c0 =>
  match lines.get? 1 with
  | none => .error .sheetParsingError
  | some c1 =>
  match lines.get? 2 with
  | none => .error .sheetParsingError
  | some c2 =>
  match lines.get? 5 with
  | none => .error .sheetParsingError
  | some c5 =>
  match lines.get? 6 with
  | none => .error .sheetParsingError
  | some c6 =>
  match lines.get? 7 with
  | none => .error .sheetParsingError
  | some c7 =>
  match lines.get? 8 with
  | none => .error .sheetParsingError
  | some c8 =>
  .ok { undermine := parse_float c0
        fort_override := parse_float c1
        trigger := parse_int c2
        fort_status := parse_int c5
        um_status := parse_int c6
        distance := parse_float c7
        notes := pyStrip c8
        name := pyStrip name9
        sheet_col := column
        sheet_order := order }

theorem kwargs_fort_system_eq (lines : List PyStr) (order : Int) (column : PyStr) :
    kwargs_fort_system lines order column =
      if 10 ≤ lines.length ∧ lines.getD 9 [] ≠ [] then
        .ok { undermine := parse_float (lines.getD 0 [])
              fort_override := parse_float (lines.getD 1 [])
              trigger := parse_int (lines.getD 2 [])
              fort_status := parse_int (lines.getD 5 [])
              um_status := parse_int (lines.getD 6 [])
              distance := parse_float (lines.getD 7 [])
              notes := pyStrip (lines.getD 8 [])
              name := pyStrip (lines.getD 9 [])
              sheet_col := column
              sheet_order := order }
      else .error .sheetParsingError := by
  unfold kwargs_fort_system
  by_cases hlen : 10 ≤ lines.length
  · simp only [get?_eq_some_getD ([] : PyStr) (show 9 < lines.length by omega),
      get?_eq_some_getD ([] : PyStr) (show 0 < lines.length by omega),
      get?_eq_some_getD ([] : PyStr) (show 1 < lines.length by omega),
      get?_eq_some_getD ([] : PyStr) (show 2 < lines.length by omega),
      get?_eq_some_getD ([] : PyStr) (show 5 < lines.length by omega),
      get?_eq_some_getD ([] : PyStr) (show 6 < lines.length by omega),
      get?_eq_some_getD ([] : PyStr) (show 7 < lines.length by omega),
      get?_eq_some_getD ([] : PyStr) (show 8 < lines.length by omega)]
    by_cases h9 : lines.getD 9 [] = []
    · rw [if_pos h9, if_neg (fun hc => hc.2 h9)]
    · rw [if_neg h9, if_pos ⟨hlen, h9⟩]
  · rw [if_neg (by intro hc; exact hlen hc.1)]
    rcases h9 : lines.get? 9 with _ | name9
    · rfl
    · exact absurd (lt_length_of_get?_eq_some h9) (by omega)

/-- Modelled from the spec: the column walk of the fort-sheet parser
(`parse_systems`).  The scanner class that iterates the sheet's columns is
commented out in src/cogdb/query.py and `cog/sheets.py` is not under src, so
the loop is taken from the spec: walk the system columns left to right,
convert each with `kwargs_fort_system` at successive sheet orders, and stop
at the first column that raises `SheetParsingError`.  Each element of `cols`
pairs a column letter with that column's cells. -/
def parse_systemsFrom : List (PyStr × List PyStr) → Int → List FortKwargs
  | [], _ => []
  | (col, lines) :: rest, order =>
    match kwargs_fort_system lines order col with
    | .ok r => r :: parse_systemsFrom rest (order + 1)
    | .error _ => []

/-- Modelled from the spec: `parse_systems` starts the walk at sheet order 1. -/
def parse_systems (cols : List (PyStr × List PyStr)) : List FortKwargs :=
  parse_systemsFrom cols 1

theorem kwargs_fort_system_ok_order (lines : List PyStr) (order : Int) (column : PyStr)
    (r : FortKwargs) (h : kwargs_fort_system lines order column = .ok r) :
    r.sheet_order = order := by
  rw [kwargs_fort_system_eq] at h
  by_cases hc : 10 ≤ lines.length ∧ lines.getD 9 [] ≠ []
  · rw [if_pos hc] at h
    cases h
    rfl
  · rw [if_neg hc] at h
    cases h

theorem kwargs_fort_system_err_of_name_empty (lines : List PyStr) (order : Int)
    (column : PyStr) (h : lines.getD 9 [] = []) :
    kwargs_fort_system lines order column = .error .sheetParsingError := by
  rw [kwargs_fort_system_eq, if_neg (fun hc => hc.2 h)]

/-- C5: `kwargs_fort_system` raises `SheetParsingError` exactly when the name
cell at fixed index 9 is the empty string or a required cell is missing
(fewer than 10 cells); otherwise it returns the record whose undermine,
fort_override, trigger, fort_status, um_status, distance, notes and name
fields are read from the fixed indices 0, 1, 2, 5, 6, 7, 8, 9 of the column,
with the supplied order and column letter.  Consequently a grid walk stops
at the first column whose name cell is empty, yielding only the preceding
well-formed records in order. -/
theorem kwargs_fort_system_spec :
    (∀ (lines : List PyStr) (order : Int) (column : PyStr),
      kwargs_fort_system lines order column =
        if 10 ≤ lines.length ∧ lines.getD 9 [] ≠ [] then
          .ok { undermine := parse_float (lines.getD 0 [])
                fort_override := parse_float (lines.getD 1 [])
                trigger := parse_int (lines.getD 2 [])
                fort_status := parse_int (lines.getD 5 [])
                um_status := parse_int (lines.getD 6 [])
                distance := parse_float (lines.getD 7 [])
                notes := pyStrip (lines.getD 8 [])
                name := pyStrip (lines.getD 9 [])
                sheet_col := column
                sheet_order := order }
        else .error .sheetParsingError)
    ∧ (∀ (g1 g2 g3 : PyStr × List PyStr) (r1 r2 : FortKwargs),
        kwargs_fort_system g1.2 1 g1.1 = .ok r1 →
        kwargs_fort_system g2.2 2 g2.1 = .ok r2 →
        g3.2.getD 9 [] = [] →
        parse_systems [g1, g2, g3] = [r1, r2]
          ∧ r1.sheet_order = 1 ∧ r2.sheet_order = 2) := by
  refine ⟨kwargs_fort_system_eq, ?_⟩
  rintro ⟨col1, lines1⟩ ⟨col2, lines2⟩ ⟨col3, lines3⟩ r1 r2 h1 h2 h3
  refine ⟨?_, kwargs_fort_system_ok_order _ _ _ _ h1, kwargs_fort_system_ok_order _ _ _ _ h2⟩
  dsimp only at h1 h2 h3
  have e2 : (1 : Int) + 1 = 2 := by norm_num
  have e3 : (2 : Int) + 1 = 3 := by norm_num
  simp only [parse_systems, parse_systemsFrom, e2, e3, h1, h2,
    kwargs_fort_system_err_of_name_empty lines3 3 col3 h3]

/-- Concrete instantiation of `kwargs_fort_system_spec`: a three-column grid
whose third column has an empty name cell parses to exactly the first two
records, with sheet orders 1 and 2. -/
theorem kwargs_fort_system_spec_witness :
    parse_systems
        [("G".data, [[], [], "5000".data, [], [], "100".data, "0".data, [], [], "Sol".data]),
         ("H".data, [[], [], "7400".data, [], [], "50".data, "0".data, [], [], "Rana".data]),
         ("I".data, [[], [], [], [], [], [], [], [], [], []])]
      = [{ undermine := 0, fort_override := 0, trigger := 5000, fort_status := 100,
           um_status := 0, distance := 0, notes := [], name := "Sol".data,
           sheet_col := "G".data, sheet_order := 1 },
         { undermine := 0, fort_override := 0, trigger := 7400, fort_status := 50,
           um_status := 0, distance := 0, notes := [], name := "Rana".data,
           sheet_col := "H".data, sheet_order := 2 }]
      ∧ ({ undermine := 0, fort_override := 0, trigger := 5000, fort_status := 100,
           um_status := 0, distance := 0, notes := [], name := "Sol".data,
           sheet_col := "G".data, sheet_order := 1 } : FortKwargs).sheet_order = 1
      ∧ ({ undermine := 0, fort_override := 0, trigger := 7400, fort_status := 50,
           um_status := 0, distance := 0, notes := [], name := "Rana".data,
           sheet_col := "H".data, sheet_order := 2 } : FortKwargs).sheet_order = 2 :=
  kwargs_fort_system_spec.2
    ("G".data, [[], [], "5000".data, [], [], "100".data, "0".data, [], [], "Sol".data])
    ("H".data, [[], [], "7400".data, [], [], "50".data, "0".data, [], [], "Rana".data])
    ("I".data, [[], [], [], [], [], [], [], [], [], []])
    _ _ (by rfl) (by rfl) (by rfl)

/-- Substring membership, modelling the Python `in` operator on strings. -/
def pyContainsSub (sub : PyStr) : PyStr → Bool
  | [] => sub.isEmpty
  | c :: rest => sub.isPrefixOf (c :: rest) || pyContainsSub sub rest

/-- Model of `.replace('Sec: ', '')` as applied to the stripped security
cell: delete every occurrence of the literal `Sec: `, scanning left to
right. -/
def removeSecMarks : PyStr → PyStr
  | 'S' :: 'e' :: 'c' :: ':' :: ' ' :: rest => removeSecMarks rest
  | c :: rest => c :: removeSecMarks rest
  | [] => []

/-- The `SystemUM` subclass chosen by `kwargs_um_system` (the polymorphic
`cls` entry of the kwargs dict). -/
inductive UMCls where
  | uMExpand
  | uMOppose
  | uMControl
  deriving DecidableEq, Repr

/-- Record built by `cogdb.schema.kwargs_um_system`. -/
structure UMKwargs where
  cls : UMCls
  exp_trigger : Int
  goal : Int
  security : PyStr
  notes : PyStr
  close_control : PyStr
  name : PyStr
  progress_us : Int
  progress_them : Rat
  map_offset : Int
  sheet_col : PyStr
  deriving DecidableEq, Repr

/-- Model of `cogdb.schema.kwargs_um_system` (src/cogdb/schema.py).  `cells`
holds the two adjacent sheet columns (main then secondary).  Accesses follow
the source's evaluation order; an out-of-range access raises `IndexError`,
converted to `SheetParsingError` by the enclosing `except` clause — except
for `main_col[12]`, whose `IndexError` is caught separately and yields a
zero `map_offset`. -/
def kwargs_um_system (cells : List (List PyStr)) (sheet_col : PyStr) :
    Except PyExc UMKwargs :=
  match cells.get? 0 with
  | none => .error .sheetParsingError
  | some main_col =>
  match cells.get? 1 with
  | none => .error .sheetParsingError
  | some sec_col =>
  match main_col.get? 8 with
  | none => .error .sheetParsingError
  | some name8 =>
  if name8 = [] ∨ pyContainsSub "template".data (pyLower name8) then
    .error .sheetParsingError
  else
  match main_col.get? 0 with
  | none => .error .sheetParsingError
  | some m0 =>
  let cls := if "Exp".data.isPrefixOf m0 then UMCls.uMExpand
             else if m0 ≠ [] then UMCls.uMOppose
             else UMCls.uMControl
  let map_offset := match main_col.get? 12 with
                    | some m12 => parse_int m12
                    | none => 0
  match main_col.get? 1 with
  | none => .error .sheetParsingError
  | some m1 =>
  match main_col.get? 3 with
  | none => .error .sheetParsingError
  | some m3 =>
  match main_col.get? 6 with
  | none => .error .sheetParsingError
  | some m6 =>
  match sec_col.get? 6 with
  | none => .error .sheetParsingError
  | some s6 =>
  match main_col.get? 7 with
  | none => .error .sheetParsingError
  | some m7 =>
  match main_col.get? 9 with
  | none => .error .sheetParsingError
  | some m9 =>
  match main_col.get? 10 with
  | none => .error .sheetParsingError
  | some m10 =>
  .ok { cls := cls
        exp_trigger := parse_int m1
        goal := parse_int m3
        security := removeSecMarks (pyStrip m6)
        notes := pyStrip s6
        close_control := pyStrip m7
        name := pyStrip name8
        progress_us := parse_int m9
        progress_them := parse_float m10
        map_offset := map_offset
        sheet_col := sheet_col }

/-- Specification-side record for a well-formed undermine column pair,
reading the fixed indices of the main and secondary columns. -/
def umSpecRecord (main sec : List PyStr) (sheet_col : PyStr) : UMKwargs :=
  { cls := if "Exp".data.isPrefixOf (main.getD 0 []) then UMCls.uMExpand
           else if main.getD 0 [] ≠ [] then UMCls.uMOppose
           else UMCls.uMControl
    exp_trigger := parse_int (main.getD 1 [])
    goal := parse_int (main.getD 3 [])
    security := removeSecMarks (pyStrip (main.getD 6 []))
    notes := pyStrip (sec.getD 6 [])
    close_control := pyStrip (main.getD 7 [])
    name := pyStrip (main.getD 8 [])
    progress_us := parse_int (main.getD 9 [])
    progress_them := parse_float (main.getD 10 [])
    map_offset := match main.get? 12 with
                  | some m12 => parse_int m12
                  | none => 0
    sheet_col := sheet_col }

theorem kwargs_um_system_eq (cells : List (List PyStr)) (sheet_col : PyStr) :
    kwargs_um_system cells sheet_col =
      if 2 ≤ cells.length ∧ 11 ≤ (cells.getD 0 []).length ∧ 7 ≤ (cells.getD 1 []).length
          ∧ (cells.getD 0 []).getD 8 [] ≠ []
          ∧ pyContainsSub "template".data (pyLower ((cells.getD 0 []).getD 8 [])) = false then
        .ok (umSpecRecord (cells.getD 0 []) (cells.getD 1 []) sheet_col)
      else .error .sheetParsingError := by
  unfold kwargs_um_system
  rcases h0 : cells.get? 0 with _ | main
  · have hl := List.get?_eq_none.mp h0
    rw [if_neg (fun hc => absurd hc.1 (by omega))]
  have hm0 := getD_eq_of_get? ([] : List PyStr) h0
  rw [hm0]
  dsimp only
  rcases h1 : cells.get? 1 with _ | sec
  · have hl := List.get?_eq_none.mp h1
    rw [if_neg (fun hc => absurd hc.1 (by omega))]
  have hm1 := getD_eq_of_get? ([] : List PyStr) h1
  rw [hm1]
  dsimp only
  rcases h8 : main.get? 8 with _ | name8
  · have hl := List.get?_eq_none.mp h8
    rw [if_neg (fun hc => absurd hc.2.1 (by omega))]
  have hg8 := getD_eq_of_get? ([] : PyStr) h8
  rw [hg8]
  dsimp only
  by_cases hname : name8 = [] ∨ pyContainsSub "template".data (pyLower name8) = true
  · rw [if_pos hname, if_neg ?_]
    rintro ⟨-, -, -, hne, hcf⟩
    rcases hname with h | h
    · exact hne h
    · rw [hcf] at h
      cases h
  · rw [if_neg hname]
    have hparts := not_or.mp hname
    have hne : name8 ≠ [] := hparts.1
    have hcf : pyContainsSub "template".data (pyLower name8) = false := by
      have := hparts.2
      simp at this
      exact this
    by_cases hBig : 2 ≤ cells.length ∧ 11 ≤ main.length ∧ 7 ≤ sec.length ∧ name8 ≠ []
        ∧ pyContainsSub "template".data (pyLower name8) = false
    · obtain ⟨hb1, hb2, hb3, -, -⟩ := hBig
      rw [if_pos ⟨hb1, hb2, hb3, hne, hcf⟩]
      simp only [get?_eq_some_getD ([] : PyStr) (show 0 < main.length by omega),
        get?_eq_some_getD ([] : PyStr) (show 1 < main.length by omega),
        get?_eq_some_getD ([] : PyStr) (show 3 < main.length by omega),
        get?_eq_some_getD ([] : PyStr) (show 6 < main.length by omega),
        get?_eq_some_getD ([] : PyStr) (show 6 < sec.length by omega),
        get?_eq_some_getD ([] : PyStr) (show 7 < main.length by omega),
        get?_eq_some_getD ([] : PyStr) (show 9 < main.length by omega),
        get?_eq_some_getD ([] : PyStr) (show 10 < main.length by omega)]
      unfold umSpecRecord
      rw [hg8]
    · rw [if_neg hBig]
      rcases hq0 : main.get? 0 with _ | m0
      · rfl
      dsimp only
      rcases hq1 : main.get? 1 with _ | m1
      · rfl
      dsimp only
      rcases hq3 : main.get? 3 with _ | m3
      · rfl
      dsimp only
      rcases hq6 : main.get? 6 with _ | m6
      · rfl
      dsimp only
      rcases hs6 : sec.get? 6 with _ | s6
      · rfl
      dsimp only
      rcases hq7 : main.get? 7 with _ | m7
      · rfl
      dsimp only
      rcases hq9 : main.get? 9 with _ | m9
      · rfl
      dsimp only
      rcases hq10 : main.get? 10 with _ | m10
      · rfl
      exact absurd ⟨lt_length_of_get?_eq_some h1, lt_length_of_get?_eq_some hq10,
        lt_length_of_get?_eq_some hs6, hne, hcf⟩ hBig

/-- C6: `kwargs_um_system` infers the record's subclass from the first cell
of the main column — a value starting with `Exp` yields an expansion system,
a non-empty value not starting with `Exp` yields an opposition system, and
an empty value yields a control system — and it raises `SheetParsingError`
exactly when the name cell (main column index 8) is empty or contains
`template` (case-insensitively) or a required cell is missing; the optional
map-offset cell at index 12 is never required. -/
theorem kwargs_um_system_spec :
    (∀ (cells : List (List PyStr)) (sheet_col : PyStr),
      kwargs_um_system cells sheet_col =
        if 2 ≤ cells.length ∧ 11 ≤ (cells.getD 0 []).length ∧ 7 ≤ (cells.getD 1 []).length
            ∧ (cells.getD 0 []).getD 8 [] ≠ []
            ∧ pyContainsSub "template".data (pyLower ((cells.getD 0 []).getD 8 [])) = false then
          .ok (umSpecRecord (cells.getD 0 []) (cells.getD 1 []) sheet_col)
        else .error .sheetParsingError)
    ∧ (∀ (main sec : List PyStr) (sheet_col : PyStr),
        (umSpecRecord main sec sheet_col).cls =
          if "Exp".data.isPrefixOf (main.getD 0 []) then UMCls.uMExpand
          else if main.getD 0 [] ≠ [] then UMCls.uMOppose
          else UMCls.uMControl) :=
  ⟨kwargs_um_system_eq, fun _ _ _ => rfl⟩

/-- A `Drop` row (cogdb.schema.Drop): one merit record linking a user's
sheet row to a fort System. -/
structure DropRec where
  user_id : Nat
  system_id : Nat
  amount : Int
  deriving DecidableEq, Repr

/-- The fields of `cogdb.schema.System` read by the embedded properties;
`merits` is the ORM relationship to the System's Drop rows. -/
structure System where
  fort_status : Int
  trigger : Int
  um_status : Int
  undermine : Rat
  fort_override : Rat
  notes : PyStr
  merits : List DropRec
  deriving DecidableEq, Repr

/-- Model of `System.cmdr_merits`: the loop summing `drop.amount` over the
System's merit rows. -/
def System.cmdr_merits (s : System) : Int :=
  s.merits.foldl (fun total drop => total + drop.amount) 0

/-- Truncation toward zero of a rational, modelling Python `int()` applied
to a float. -/
def ratTrunc (q : Rat) : Int := q.num.tdiv q.den

/-- Python `/` on two ints: `ZeroDivisionError` when the divisor is 0, else
the exact quotient (floats modelled as rationals). -/
def pyDiv (a b : Int) : Except PyExc Rat :=
  if b = 0 then .error .zeroDivisionError else .ok ((a : Rat) / (b : Rat))

/-- Model of `System.current_status`: the max of `fort_status` and
`cmdr_merits`, overridden by `int(fort_override * trigger)` whenever
`fort_override` exceeds the completion fraction `supplies / trigger`. -/
def System.current_status (s : System) : Except PyExc Int :=
  let supplies := max s.fort_status s.cmdr_merits
  match pyDiv supplies s.trigger with
  | .error e => .error e
  | .ok frac =>
    if s.fort_override > frac then .ok (ratTrunc (s.fort_override * (s.trigger : Rat)))
    else .ok supplies

/-- Model of `System.missing`: the remaining supplies to fortify. -/
def System.missing (s : System) : Except PyExc Int :=
  match s.current_status with
  | .ok cs => .ok (max 0 (s.trigger - cs))
  | .error e => .error e

theorem foldl_add_eq_sum {β : Type} (g : β → Int) (l : List β) (a : Int) :
    l.foldl (fun t x => t + g x) a = a + (l.map g).sum := by
  induction l generalizing a with
  | nil => simp
  | cons x xs ih => simp [ih, add_assoc]

theorem cmdr_merits_eq_sum (s : System) :
    s.cmdr_merits = (s.merits.map DropRec.amount).sum := by
  unfold System.cmdr_merits
  simpa using foldl_add_eq_sum DropRec.amount s.merits 0

theorem missing_eq (s : System) (h : s.trigger ≠ 0) :
    s.missing = .ok (max 0 (s.trigger -
      (if s.fort_override > ((max s.fort_status s.cmdr_merits : Int) : Rat) / (s.trigger : Rat)
       then ratTrunc (s.fort_override * (s.trigger : Rat))
       else max s.fort_status s.cmdr_merits))) := by
  unfold System.missing System.current_status pyDiv
  dsimp only
  rw [if_neg h]
  dsimp only
  by_cases hov : s.fort_override
      > ((max s.fort_status s.cmdr_merits : Int) : Rat) / (s.trigger : Rat)
  · rw [if_pos hov, if_pos hov]
  · rw [if_neg hov, if_neg hov]

theorem ratTrunc_intCast (n : Int) : ratTrunc (n : Rat) = n := by
  simp [ratTrunc]

/-- The override system used to refute the plain missing formula:
fort_override 0.5, trigger 100, no status and no drops. -/
def overrideSys : System :=
  { fort_status := 0, trigger := 100, um_status := 0, undermine := 0,
    fort_override := (1 : Rat) / 2, notes := [], merits := [] }

/-- A plain system with no override: trigger 100, no status, no drops. -/
def plainSys : System :=
  { fort_status := 0, trigger := 100, um_status := 0, undermine := 0,
    fort_override := 0, notes := [], merits := [] }

/-- C8 counterexample: on a System with fort_override 0.5, trigger 100 and
no merits, `missing` is 50 (driven by the override branch of
`current_status`), while the claim's formula
`max(0, trigger - max(fort_status, cmdr_merits))` gives 100. -/
theorem missing_counterexample :
    System.missing overrideSys = .ok 50
    ∧ max 0 (overrideSys.trigger - max overrideSys.fort_status overrideSys.cmdr_merits) = 100
    ∧ System.missing overrideSys
        ≠ .ok (max 0 (overrideSys.trigger
            - max overrideSys.fort_status overrideSys.cmdr_merits)) := by
  have h1 : System.missing overrideSys = .ok 50 := by
    rw [missing_eq overrideSys (by decide)]
    rw [if_pos (by norm_num [overrideSys, System.cmdr_merits])]
    rw [show overrideSys.fort_override * ((overrideSys.trigger : Int) : Rat) = ((50 : Int) : Rat)
          by norm_num [overrideSys]]
    rw [ratTrunc_intCast]
    rfl
  have h2 : max 0 (overrideSys.trigger
      - max overrideSys.fort_status overrideSys.cmdr_merits) = 100 := by decide
  refine ⟨h1, h2, ?_⟩
  rw [h1, h2]
  intro hcontra
  have := Except.ok.inj hcontra
  omega

/-- C8 (amended): for every fort System with a nonzero trigger, `missing`
equals `max(0, trigger - current_status)`, where `current_status` is
`max(fort_status, cmdr_merits)` unless `fort_override` exceeds the fraction
`supplies / trigger`, in which case it is `int(fort_override * trigger)`;
`cmdr_merits` is the sum of the amounts of the system's merit records, and
whenever the override does not exceed that fraction the claim's original
formula `max(0, trigger - max(fort_status, cmdr_merits))` holds.  (With a
zero trigger the property raises ZeroDivisionError instead.) -/
theorem missing_spec :
    (∀ s : System, s.cmdr_merits = (s.merits.map DropRec.amount).sum)
    ∧ (∀ s : System, s.trigger ≠ 0 →
        s.missing = .ok (max 0 (s.trigger -
          (if s.fort_override > ((max s.fort_status s.cmdr_merits : Int) : Rat) / (s.trigger : Rat)
           then ratTrunc (s.fort_override * (s.trigger : Rat))
           else max s.fort_status s.cmdr_merits))))
    ∧ (∀ s : System, s.trigger ≠ 0 →
        ¬ (s.fort_override > ((max s.fort_status s.cmdr_merits : Int) : Rat) / (s.trigger : Rat)) →
        s.missing = .ok (max 0 (s.trigger - max s.fort_status s.cmdr_merits))) := by
  refine ⟨cmdr_merits_eq_sum, missing_eq, ?_⟩
  intro s h hov
  rw [missing_eq s h, if_neg hov]

/-- Concrete instantiation of `missing_spec` on `plainSys` (trigger 100, no
override): the plain formula applies and `cmdr_merits` is the sum of no
amounts. -/
theorem missing_spec_witness :
    plainSys.cmdr_merits = ((plainSys.merits.map DropRec.amount).sum)
    ∧ plainSys.missing
        = .ok (max 0 (plainSys.trigger - max plainSys.fort_status plainSys.cmdr_merits)) :=
  ⟨missing_spec.1 plainSys,
   missing_spec.2.2 plainSys (by decide)
     (by simp [plainSys, System.cmdr_merits])⟩

/-- The attribute written by each loop iteration of `System.set_status`. -/
inductive FortAttr where
  | fortStatus
  | umStatus
  deriving DecidableEq, Repr

/-- Model of `setattr(self, attr, v)` for the two attributes `set_status`
touches. -/
def System.setAttr (s : System) : FortAttr → Int → System
  | .fortStatus, v => { s with fort_status := v }
  | .umStatus, v => { s with um_status := v }

/-- Exceptions raised by `System.set_status`: `InvalidCommandArgs` for a
negative value, `ValueError` from `int()` on a malformed token. -/
inductive SetStatusErr where
  | invalidCommandArgs
  | valueError
  deriving DecidableEq, Repr

/-- Loop of `System.set_status` over
`zip(new_status.split(':'), ['fort_status', 'um_status'])`.  The returned
System is the receiver's state at the moment the loop finishes or the
exception is raised, which makes the partial mutation on error
observable. -/
def setStatusLoop (s : System) : List (PyStr × FortAttr) → System × Option SetStatusErr
  | [] => (s, none)
  | (val, attr) :: rest =>
    match pyInt val with
    | .error _ => (s, some .valueError)
    | .ok n =>
      if n < 0 then (s, some .invalidCommandArgs)
      else setStatusLoop (s.setAttr attr n) rest

/-- Model of `System.set_status` (src/cogdb/schema.py). -/
def System.set_status (s : System) (new_status : PyStr) : System × Option SetStatusErr :=
  setStatusLoop s ((pySplitOn ':' new_status).zip [FortAttr.fortStatus, FortAttr.umStatus])

/-- C10: `System.set_status` is not atomic on error.  For an input `A:B`
where `A` parses to a non-negative integer and `B` parses to a negative
integer, it raises `InvalidCommandArgs`, but `fort_status` has already been
overwritten with `A` before the raise, so the error branch does not leave
the System unchanged. -/
theorem set_status_not_atomic (s : System) (a b : PyStr) (na nb : Int)
    (hsplit : pySplitOn ':' (a ++ ':' :: b) = [a, b])
    (ha : pyInt a = .ok na) (hna : 0 ≤ na)
    (hb : pyInt b = .ok nb) (hnb : nb < 0) :
    System.set_status s (a ++ ':' :: b)
      = ({ s with fort_status := na }, some SetStatusErr.invalidCommandArgs) := by
  unfold System.set_status
  rw [hsplit]
  simp only [List.zip, List.zipWith, setStatusLoop, ha, hb]
  rw [if_neg (by omega), if_pos hnb]
  rfl

/-- Concrete instantiation of `set_status_not_atomic` at input `5:-3`: the
call raises `InvalidCommandArgs` with `fort_status` already set to 5. -/
theorem set_status_not_atomic_witness :
    System.set_status plainSys ("5".data ++ ':' :: "-3".data)
      = ({ plainSys with fort_status := 5 }, some SetStatusErr.invalidCommandArgs) :=
  set_status_not_atomic plainSys "5".data "-3".data 5 (-3)
    (by rfl) (by rfl) (by decide) (by rfl) (by decide)

/-- A `Hold` row (cogdb.schema.Hold): merits held and redeemed by one user
on an undermining system. -/
structure HoldRec where
  held : Int
  redeemed : Int
  deriving DecidableEq, Repr

/-- The closed set of `SystemUM` subclasses (cogdb.schema polymorphic
identities): `UMControl`, `UMExpand`, `UMOppose`. -/
inductive EUMType where
  | control
  | expand
  | oppose
  deriving DecidableEq, Repr

/-- The fields of `cogdb.schema.SystemUM` read by the embedded properties;
`type` is the polymorphic identity and `merits` the relationship to the
system's Hold rows. -/
structure SystemUM where
  type : EUMType
  goal : Int
  progress_us : Int
  map_offset : Int
  merits : List HoldRec
  deriving DecidableEq, Repr

/-- Model of `SystemUM.cmdr_merits`: the loop summing
`hold.held + hold.redeemed`. -/
def SystemUM.cmdr_merits (s : SystemUM) : Int :=
  s.merits.foldl (fun total hold => total + (hold.held + hold.redeemed)) 0

/-- Model of `SystemUM.missing`:
`goal - max(cmdr_merits + map_offset, progress_us)`. -/
def SystemUM.missing (s : SystemUM) : Int :=
  s.goal - max (s.cmdr_merits + s.map_offset) s.progress_us

/-- The base-class body of `SystemUM.is_undermined`: true only if the system
is undermined, i.e. `missing <= 0`. -/
def SystemUM.is_undermined_base (s : SystemUM) : Bool :=
  s.missing ≤ 0

/-- Polymorphic dispatch of `is_undermined` over the subclass tag:
`UMControl` inherits the `SystemUM` body; `UMExpand` overrides it with False
(expansions are never finished until tick); `UMOppose` extends `UMExpand`
and inherits the override. -/
def SystemUM.is_undermined (s : SystemUM) : Bool :=
  match s.type with
  | .control => s.is_undermined_base
  | .expand => false
  | .oppose => false

/-- C9: for every undermining system of type expansion or opposition,
`is_undermined` is always False regardless of goal, merits, map_offset or
progress, while for a control-type system `is_undermined` is True exactly
when `missing <= 0`, with
`missing = goal - max(cmdr_merits + map_offset, progress_us)` and
`cmdr_merits` the sum of held + redeemed over the system's holds. -/
theorem um_is_undermined_spec :
    (∀ s : SystemUM, s.type = .expand ∨ s.type = .oppose → s.is_undermined = false)
    ∧ (∀ s : SystemUM, s.type = .control → (s.is_undermined = true ↔ s.missing ≤ 0))
    ∧ (∀ s : SystemUM, s.missing = s.goal - max (s.cmdr_merits + s.map_offset) s.progress_us)
    ∧ (∀ s : SystemUM,
        s.cmdr_merits = (s.merits.map (fun h => h.held + h.redeemed)).sum) := by
  refine ⟨?_, ?_, fun s => rfl, ?_⟩
  · rintro s (h | h) <;> simp [SystemUM.is_undermined, h]
  · intro s h
    simp [SystemUM.is_undermined, h, SystemUM.is_undermined_base]
  · intro s
    unfold SystemUM.cmdr_merits
    simpa using foldl_add_eq_sum (fun h => h.held + h.redeemed) s.merits 0

/-- An expansion past its trigger and a control system past its goal. -/
def expandSys : SystemUM :=
  { type := .expand, goal := 10000, progress_us := 20000, map_offset := 0,
    merits := [{ held := 5000, redeemed := 8000 }] }

/-- A control system whose progress exceeds its goal. -/
def controlSys : SystemUM :=
  { type := .control, goal := 10000, progress_us := 12000, map_offset := 0,
    merits := [] }

/-- Concrete instantiation of `um_is_undermined_spec`: an expansion beyond
its goal is still not undermined, while a control system past its goal
is. -/
theorem um_is_undermined_spec_witness :
    SystemUM.is_undermined expandSys = false ∧ SystemUM.is_undermined controlSys = true :=
  ⟨um_is_undermined_spec.1 expandSys (Or.inl rfl),
   (um_is_undermined_spec.2.1 controlSys rfl).mpr (by decide)⟩

/-- The columns of the parent System mutated by the merit upsert, as the
Reconciled Store sees them. -/
structure SysAgg where
  id : Nat
  fort_status : Int
  cmdr_merits : Int
  deriving DecidableEq, Repr

/-- The session query filter of the upsert: the Drop belonging to the given
(user, system) pair. -/
def dropMatches (user_id system_id : Nat) (d : DropRec) : Bool :=
  d.user_id == user_id && d.system_id == system_id

/-- Whether a Drop for the pair already exists. -/
def dropExists (user_id system_id : Nat) (drops : List DropRec) : Bool :=
  drops.any (dropMatches user_id system_id)

/-- Increment the first Drop matching the (user, system) pair by amount. -/
def incFirstDrop (user_id system_id : Nat) (amount : Int) : List DropRec → List DropRec
  | [] => []
  | d :: rest =>
    if dropMatches user_id system_id d then
      { d with amount := d.amount + amount } :: rest
    else d :: incFirstDrop user_id system_id amount rest

/-- The merit records held for a (user, system) pair. -/
def dropsFor (user_id system_id : Nat) (drops : List DropRec) : List DropRec :=
  drops.filter (dropMatches user_id system_id)

/-- Modelled from the spec: `fort_add_drop` / `upsert_merit`.  The body of
`fort_add_drop` is commented out in src/cogdb/query.py (only its test in
tests/cogdb/test_query.py and its caller in cog/actions.py remain), so the
upsert is modelled from the spec: find-or-create the Drop record for the
(system, user) pair, apply `amount += delta`, and mutate the parent
System's cached `fort_status` and `cmdr_merits` aggregates within the same
transaction. -/
def fort_add_drop (drops : List DropRec) (system : SysAgg) (user_id : Nat) (amount : Int) :
    List DropRec × SysAgg :=
  let drops2 :=
    if dropExists user_id system.id drops then incFirstDrop user_id system.id amount drops
    else drops ++ [{ user_id := user_id, system_id := system.id, amount := amount }]
  (drops2,
   { system with fort_status := system.fort_status + amount,
                 cmdr_merits := system.cmdr_merits + amount })

theorem incFirstDrop_append_no_match (user_id system_id : Nat) (amount : Int)
    (l : List DropRec) (d0 : DropRec)
    (hall : ∀ d ∈ l, dropMatches user_id system_id d = false)
    (hd0 : dropMatches user_id system_id d0 = true) :
    incFirstDrop user_id system_id amount (l ++ [d0])
      = l ++ [{ d0 with amount := d0.amount + amount }] := by
  induction l with
  | nil => simp [incFirstDrop, hd0]
  | cons d rest ih =>
    have hd := hall d (by simp)
    have hstep := ih (fun x hx => hall x (by simp [hx]))
    simp only [List.cons_append, incFirstDrop, hd]
    simp [hstep]

/-- C2: starting from a store with no merit record for the (system, user)
pair, applying the merit upsert twice with deltas 100 then 50 leaves
exactly one merit record for the pair, with amount 150, and increases the
parent System's `fort_status` and `cmdr_merits` by 150 in total. -/
theorem fort_add_drop_twice (drops : List DropRec) (system : SysAgg) (user_id : Nat)
    (hnone : dropsFor user_id system.id drops = []) :
    dropsFor user_id system.id
        (fort_add_drop (fort_add_drop drops system user_id 100).1
          (fort_add_drop drops system user_id 100).2 user_id 50).1
      = [{ user_id := user_id, system_id := system.id, amount := 150 }]
    ∧ (fort_add_drop (fort_add_drop drops system user_id 100).1
        (fort_add_drop drops system user_id 100).2 user_id 50).2.fort_status
      = system.fort_status + 150
    ∧ (fort_add_drop (fort_add_drop drops system user_id 100).1
        (fort_add_drop drops system user_id 100).2 user_id 50).2.cmdr_merits
      = system.cmdr_merits + 150 := by
  have hall : ∀ d ∈ drops, dropMatches user_id system.id d = false := by
    intro d hd
    have := List.filter_eq_nil_iff.mp hnone d hd
    simpa using this
  have hex1 : dropExists user_id system.id drops = false := by
    unfold dropExists
    rw [List.any_eq_false]
    intro d hd
    simp [hall d hd]
  have hmnew : dropMatches user_id system.id
      { user_id := user_id, system_id := system.id, amount := (100 : Int) } = true := by
    simp [dropMatches]
  have hex2 : dropExists user_id system.id
      (drops ++ [{ user_id := user_id, system_id := system.id, amount := 100 }]) = true := by
    unfold dropExists
    simp only [List.any_append, List.any_cons, List.any_nil, hmnew]
    simp
  have hst : fort_add_drop drops system user_id 100
      = (drops ++ [{ user_id := user_id, system_id := system.id, amount := 100 }],
         { system with fort_status := system.fort_status + 100,
                       cmdr_merits := system.cmdr_merits + 100 }) := by
    unfold fort_add_drop
    rw [hex1]
    simp
  rw [hst]
  dsimp only
  refine ⟨?_, ?_, ?_⟩
  · unfold fort_add_drop
    dsimp only
    rw [if_pos hex2]
    rw [incFirstDrop_append_no_match user_id system.id 50 drops _ hall hmnew]
    unfold dropsFor
    unfold dropsFor at hnone
    rw [List.filter_append, hnone]
    simp [dropMatches]
  · unfold fort_add_drop
    dsimp only
    omega
  · unfold fort_add_drop
    dsimp only
    omega

/-- Concrete instantiation of `fort_add_drop_twice` on an empty store. -/
theorem fort_add_drop_twice_witness :
    dropsFor 3 7
        (fort_add_drop (fort_add_drop [] { id := 7, fort_status := 4000, cmdr_merits := 300 } 3 100).1
          (fort_add_drop [] { id := 7, fort_status := 4000, cmdr_merits := 300 } 3 100).2 3 50).1
      = [{ user_id := 3, system_id := 7, amount := 150 }]
    ∧ (fort_add_drop (fort_add_drop [] { id := 7, fort_status := 4000, cmdr_merits := 300 } 3 100).1
        (fort_add_drop [] { id := 7, fort_status := 4000, cmdr_merits := 300 } 3 100).2 3 50).2.fort_status
      = ({ id := 7, fort_status := 4000, cmdr_merits := 300 } : SysAgg).fort_status + 150
    ∧ (fort_add_drop (fort_add_drop [] { id := 7, fort_status := 4000, cmdr_merits := 300 } 3 100).1
        (fort_add_drop [] { id := 7, fort_status := 4000, cmdr_merits := 300 } 3 100).2 3 50).2.cmdr_merits
      = ({ id := 7, fort_status := 4000, cmdr_merits := 300 } : SysAgg).cmdr_merits + 150 :=
  fort_add_drop_twice [] { id := 7, fort_status := 4000, cmdr_merits := 300 } 3 (by rfl)

/-- Modelled from the spec: the per-wrapper state machine of the Scheduler
(`cog/scheduler.py` is imported by src/cog/bot.py but is not under src):
`ACTIVE` (commands flow normally) and `SYNCING` (a resync is in progress;
dependent commands are gated). -/
inductive WState where
  | active
  | syncing
  deriving DecidableEq, Repr

/-- Modelled from the spec: `disabled(cmd)` is true iff the wrapper owning
the command is currently SYNCING; `f` gives that wrapper's state at each
step of the event loop. -/
def disabled (f : Nat → WState) (t : Nat) : Bool :=
  f t == WState.syncing

/-- Modelled from the spec: `wait_for(cmd)` suspends the calling command
until the owning wrapper returns to ACTIVE; it resumes at the first step
strictly after `t` at which the wrapper is ACTIVE, searching up to `fuel`
steps ahead (`none`: the wrapper never became ACTIVE in the observed
window). -/
def waitFor (f : Nat → WState) : Nat → Nat → Option Nat
  | _, 0 => none
  | t, fuel + 1 =>
    if f (t + 1) = WState.active then some (t + 1) else waitFor f (t + 1) fuel

/-- Model of the gating loop of `CogBot.dispatch_command` (src/cog/bot.py):
while `disabled(cmd)` holds, await `wait_for(cmd)` and re-check; once the
gate is open, execute the handler.  The result is the step at which the
command's handler runs (`horizon` bounds each wait, `fuel` the number of
loop iterations); `none` means the command is still suspended at the end of
the observed window — it is never discarded. -/
def dispatch_command (f : Nat → WState) (horizon : Nat) : Nat → Nat → Option Nat
  | t, 0 => if disabled f t then none else some t
  | t, fuel + 1 =>
    if disabled f t then
      match waitFor f t horizon with
      | none => none
      | some t2 => dispatch_command f horizon t2 fuel
    else some t

theorem waitFor_some_spec (f : Nat → WState) :
    ∀ (h t t2 : Nat), waitFor f t h = some t2 →
      f t2 = WState.active ∧ t < t2 ∧ t2 ≤ t + h := by
  intro h
  induction h with
  | zero => intro t t2 hw; cases hw
  | succ n ih =>
    intro t t2 hw
    unfold waitFor at hw
    by_cases ha : f (t + 1) = WState.active
    · rw [if_pos ha] at hw
      cases hw
      exact ⟨ha, by omega, by omega⟩
    · rw [if_neg ha] at hw
      obtain ⟨h1, h2, h3⟩ := ih (t + 1) t2 hw
      exact ⟨h1, by omega, by omega⟩

theorem waitFor_first_active (f : Nat → WState) :
    ∀ (h t t2 : Nat), f t2 = WState.active → t < t2 → t2 ≤ t + h →
      (∀ u, t < u → u < t2 → f u ≠ WState.active) →
      waitFor f t h = some t2 := by
  intro h
  induction h with
  | zero => intro t t2 _ h2 h3 _; omega
  | succ n ih =>
    intro t t2 h1 h2 h3 hfirst
    unfold waitFor
    by_cases he : t2 = t + 1
    · subst he
      rw [if_pos h1]
    · have hne : f (t + 1) ≠ WState.active := hfirst (t + 1) (by omega) (by omega)
      rw [if_neg hne]
      exact ih (t + 1) t2 h1 (by omega) (by omega)
        (fun u hu1 hu2 => hfirst u (by omega) hu2)

theorem dispatch_command_of_not_disabled (f : Nat → WState) (horizon t fuel : Nat)
    (h : disabled f t = false) : dispatch_command f horizon t fuel = some t := by
  cases fuel with
  | zero => simp [dispatch_command, h]
  | succ n => simp [dispatch_command, h]

theorem dispatch_command_safety (f : Nat → WState) (horizon : Nat) :
    ∀ (fuel t texec : Nat), dispatch_command f horizon t fuel = some texec →
      disabled f texec = false ∧ t ≤ texec := by
  intro fuel
  induction fuel with
  | zero =>
    intro t texec hd
    unfold dispatch_command at hd
    by_cases h : disabled f t
    · rw [if_pos h] at hd
      cases hd
    · rw [if_neg h] at hd
      cases hd
      exact ⟨by simpa using h, le_refl t⟩
  | succ n ih =>
    intro t texec hd
    unfold dispatch_command at hd
    by_cases h : disabled f t
    · rw [if_pos h] at hd
      rcases hw : waitFor f t horizon with _ | t2
      · rw [hw] at hd
        cases hd
      · rw [hw] at hd
        obtain ⟨hdis, hle⟩ := ih t2 texec hd
        have := (waitFor_some_spec f horizon t t2 hw).2.1
        exact ⟨hdis, by omega⟩
    · rw [if_neg h] at hd
      cases hd
      exact ⟨by simpa using h, le_refl t⟩

/-- C1: in the gating loop of `dispatch_command`, a command whose wrapper is
SYNCING is never executed while `disabled` holds: (a) whenever the handler
runs, the wrapper is not SYNCING at that step and the step is not before
dispatch; (b) a command whose wrapper is ACTIVE runs immediately; (c) a
command dispatched while its wrapper is SYNCING is suspended via `wait_for`
and its handler executes exactly at the first later step at which the
wrapper has returned to ACTIVE — the command is delayed, never dropped. -/
theorem dispatch_command_gate :
    (∀ (f : Nat → WState) (horizon fuel t texec : Nat),
      dispatch_command f horizon t fuel = some texec →
        disabled f texec = false ∧ t ≤ texec)
    ∧ (∀ (f : Nat → WState) (horizon fuel t : Nat),
        disabled f t = false → dispatch_command f horizon t fuel = some t)
    ∧ (∀ (f : Nat → WState) (horizon fuel t t2 : Nat),
        disabled f t = true → f t2 = WState.active → t < t2 → t2 ≤ t + horizon →
        (∀ u, t < u → u < t2 → f u ≠ WState.active) →
        dispatch_command f horizon t (fuel + 1) = some t2) := by
  refine ⟨fun f horizon fuel t texec => dispatch_command_safety f horizon fuel t texec,
    fun f horizon fuel t h => dispatch_command_of_not_disabled f horizon t fuel h, ?_⟩
  intro f horizon fuel t t2 hdis hact hlt hle hfirst
  unfold dispatch_command
  rw [if_pos hdis, waitFor_first_active f horizon t t2 hact hlt hle hfirst]
  exact dispatch_command_of_not_disabled f horizon t2 fuel (by simp [disabled, hact])

/-- Concrete instantiation of `dispatch_command_gate`: with a wrapper that
is SYNCING at steps 0 and 1 and ACTIVE from step 2 on, a command dispatched
at step 0 executes exactly at step 2. -/
theorem dispatch_command_gate_witness :
    dispatch_command (fun t => if t < 2 then WState.syncing else WState.active) 5 0 (2 + 1)
      = some 2 :=
  dispatch_command_gate.2.2 (fun t => if t < 2 then WState.syncing else WState.active)
    5 2 0 2 (by decide) (by decide) (by decide) (by decide)
    (fun u h1 h2 => by
      have hu : u = 1 := by omega
      subst hu
      decide)

end EliteBot
